import Mathlib

/-!
Verification of `src/crates/dreammaker/src/annotation.rs`.

The file under `src/` is a thin wrapper around two pieces of the repository
that are not included under `src/`: the `Location` type (from the crate
root) and the `interval_tree` crate (an ordered multimap over inclusive
ranges).  Those two pieces are modelled from the specification; everything
in `annotation.rs` itself is translated definition by definition.
-/

set_option autoImplicit false

/-- Modelled from the spec: `Location` (defined in the crate root, not under
`src/`) is "an opaque, totally ordered position in source text" supporting a
predecessor operation producing the immediately preceding position.  We model
it as the integers, where every position has an immediate predecessor. -/
abbrev Location := Int

/-- Modelled from the spec: `Location::pred` produces the immediately
preceding position. -/
def Location.pred (l : Location) : Location := l - 1

/-- Modelled from the spec: the inclusive range type of the `interval_tree`
crate (not under `src/`).  Rust's field `end` is a Lean keyword and is named
`stop` here. -/
structure RangeInclusive (α : Type) where
  start : α
  stop : α
deriving DecidableEq, Repr

/-- Mirrors `interval_tree::range`, which builds an inclusive range from its
two endpoints. -/
def range (a b : Location) : RangeInclusive Location := ⟨a, b⟩

/-- Rust's `std::ops::Range`, the half-open range `[start, end)` used by the
public API of `AnnotationTree`.  The field `end` is a Lean keyword and is
named `stop` here. -/
structure OpsRange (α : Type) where
  start : α
  stop : α
deriving DecidableEq, Repr

/-- Modelled from the spec: overlap of two inclusive ranges, the criterion of
the black-box structure's `range_query` ("all facts whose stored range
overlaps the probe").  Two inclusive ranges overlap exactly when their
intersection is nonempty. -/
def RangeInclusive.overlaps (r q : RangeInclusive Location) : Bool :=
  decide (r.start ≤ q.stop) && decide (q.start ≤ r.stop)

/-- Modelled from the spec: the black-box `IntervalTree` of the
`interval_tree` crate (not under `src/`), "a black-box ordered multimap over
inclusive ranges supporting insert, merge, and range query".  We model it as
the list of its entries in native order. -/
structure IntervalTree (K V : Type) where
  entries : List (RangeInclusive K × V)

/-- Modelled from the spec: `IntervalTree::new` creates the empty multimap. -/
def IntervalTree.new {K V : Type} : IntervalTree K V := ⟨[]⟩

/-- Modelled from the spec: the black-box structure's
`insert(inclusive_range, value)` adds one entry to the multimap. -/
def IntervalTree.insert {V : Type} (t : IntervalTree Location V)
    (r : RangeInclusive Location) (v : V) : IntervalTree Location V :=
  ⟨t.entries ++ [(r, v)]⟩

/-- Modelled from the spec: the black-box structure's `merge(other)` absorbs
all entries of `other`. -/
def IntervalTree.merge {K V : Type} (t other : IntervalTree K V) :
    IntervalTree K V :=
  ⟨t.entries ++ other.entries⟩

/-- Modelled from the spec: the black-box structure's
`range_query(inclusive_range) -> sequence` returns all entries whose stored
range overlaps the probe, in native order. -/
def IntervalTree.rangeQuery {V : Type} (t : IntervalTree Location V)
    (q : RangeInclusive Location) : List (RangeInclusive Location × V) :=
  t.entries.filter (fun e => e.1.overlaps q)

/-- Modelled from the spec: the black-box structure's `iterate() -> sequence`
produces all `(range, value)` pairs in native order. -/
def IntervalTree.iterate {K V : Type} (t : IntervalTree K V) :
    List (RangeInclusive K × V) :=
  t.entries

/-- Modelled from the spec: identifiers from the AST module (not under
`src/`); facts only store them, never inspect them. -/
abbrev Ident := String

/-- Modelled from the spec: path operators from the AST module (not under
`src/`). -/
abbrev PathOp := String

/-- Modelled from the spec: dotted type paths from the AST module (not under
`src/`), "a sequence of identifiers (+ flags)". -/
abbrev TypePath := List (PathOp × Ident)

/-- Modelled from the spec: declared-variable types from the AST module (not
under `src/`); stored opaquely. -/
abbrev VarType := String

/-- Modelled from the spec: filesystem paths carried verbatim,
"uninterpreted by this core". -/
abbrev PathBuf := String

/-- Modelled from the spec: the documentation collection handle, "opaque
shared data" this core never inspects; `Rc` sharing is modelled by value. -/
abbrev DocCollection := String

/-- The `Annotation` enum of `annotation.rs`, variant by variant. -/
inductive Annotation where
  | TreeBlock (idents : List Ident)
  | TreePath (absolute : Bool) (idents : List Ident)
  | TypePath (path : TypePath)
  | Variable (idents : List Ident)
  | ProcHeader (idents : List Ident) (idx : Nat)
  | ProcBody (idents : List Ident) (idx : Nat)
  | LocalVarScope (var_type : VarType) (ident : Ident)
  | UnscopedCall (ident : Ident)
  | UnscopedVar (ident : Ident)
  | ScopedCall (path : List Ident) (ident : Ident)
  | ScopedVar (path : List Ident) (ident : Ident)
  | ParentCall
  | ReturnVal
  | InSequence (idx : Nat)
  | MacroDefinition (ident : Ident)
  | MacroUse (name : String) (definition_location : Location)
      (docs : Option DocCollection)
  | Include (path : PathBuf)
  | Resource (path : PathBuf)
  | ScopedMissingIdent (idents : List Ident)
  | IncompleteTypePath (path : TypePath) (op : PathOp)
  | IncompleteTreePath (absolute : Bool) (idents : List Ident)
  | ProcArguments (idents : List Ident) (raw : String) (idx : Nat)
  | ProcArgument (idx : Nat)
  | ReturnOperation (r : OpsRange Location)
  | ReturnStatement (returned_value : List Annotation)

/-- The `AnnotationTree` struct of `annotation.rs`: the black-box interval
multimap together with the explicit running element count `len`. -/
structure AnnotationTree where
  tree : IntervalTree Location Annotation
  len : Nat

/-- `AnnotationTree::default`: a new empty interval tree and count zero. -/
def AnnotationTree.default : AnnotationTree := ⟨IntervalTree.new, 0⟩

/-- `AnnotationTree::insert`: converts the half-open `place` to the
inclusive range `[place.start, place.end.pred()]`, stores the fact, and
increments `len`. -/
def AnnotationTree.insert (t : AnnotationTree) (place : OpsRange Location)
    (value : Annotation) : AnnotationTree :=
  ⟨t.tree.insert (range place.start (Location.pred place.stop)) value,
    t.len + 1⟩

/-- `AnnotationTree::merge`: adds `other.len` to `len` and merges the
underlying trees. -/
def AnnotationTree.merge (t other : AnnotationTree) : AnnotationTree :=
  ⟨t.tree.merge other.tree, t.len + other.len⟩

/-- `AnnotationTree::is_empty`: whether the running count is zero. -/
def AnnotationTree.is_empty (t : AnnotationTree) : Bool := t.len == 0

/-- `AnnotationTree::iter`: the underlying tree's iteration sequence. -/
def AnnotationTree.iter (t : AnnotationTree) :
    List (RangeInclusive Location × Annotation) :=
  t.tree.iterate

/-- `AnnotationTree::get_location`: probes `[loc.pred(), loc]`. -/
def AnnotationTree.get_location (t : AnnotationTree) (loc : Location) :
    List (RangeInclusive Location × Annotation) :=
  t.tree.rangeQuery (range (Location.pred loc) loc)

/-- `AnnotationTree::get_range`: probes `[place.start, place.end.pred()]`. -/
def AnnotationTree.get_range (t : AnnotationTree) (place : OpsRange Location) :
    List (RangeInclusive Location × Annotation) :=
  t.tree.rangeQuery (range place.start (Location.pred place.stop))

/-- `AnnotationTree::get_range_raw`: probes the already-inclusive `place`
with no conversion. -/
def AnnotationTree.get_range_raw (t : AnnotationTree)
    (place : RangeInclusive Location) :
    List (RangeInclusive Location × Annotation) :=
  t.tree.rangeQuery place

/-- `Annotation::resolved`: a `ReturnOperation(range)` becomes a
`ReturnStatement` whose `returned_value` collects the fact component of
every pair returned by `get_range(range)`; every other variant is returned
unchanged. -/
def Annotation.resolved (f : Annotation) (annotation_tree : AnnotationTree) :
    Annotation :=
  match f with
  | .ReturnOperation r =>
      .ReturnStatement ((annotation_tree.get_range r).map (fun e => e.2))
  | other => other

/-- Discriminator for the `ReturnOperation` variant, used to state the
passthrough property of `Annotation::resolved`. -/
def Annotation.isReturnOperation : Annotation → Bool
  | .ReturnOperation _ => true
  | _ => false

/-- An operation on an `AnnotationTree` as they appear in the count
invariant: one `insert` call or one `merge` call. -/
inductive TreeOp where
  | ins (place : OpsRange Location) (value : Annotation)
  | mrg (other : AnnotationTree)

/-- Apply one operation to a tree. -/
def TreeOp.apply (t : AnnotationTree) : TreeOp → AnnotationTree
  | .ins place value => t.insert place value
  | .mrg other => t.merge other

/-- Apply a sequence of operations from left to right. -/
def applyOps (t : AnnotationTree) (ops : List TreeOp) : AnnotationTree :=
  ops.foldl TreeOp.apply t

/-- The number N of `insert` calls in a sequence of operations. -/
def insCount : List TreeOp → Nat
  | [] => 0
  | TreeOp.ins _ _ :: rest => insCount rest + 1
  | TreeOp.mrg _ :: rest => insCount rest

/-- The sum of the counts of the trees merged in by a sequence of
operations. -/
def mergeCountSum : List TreeOp → Nat
  | [] => 0
  | TreeOp.ins _ _ :: rest => mergeCountSum rest
  | TreeOp.mrg other :: rest => other.len + mergeCountSum rest

/-- Validity of one operation: an `insert` call carries a valid (non
inverted) half-open range; `merge` has no precondition. -/
def TreeOp.valid : TreeOp → Prop
  | .ins place _ => place.start ≤ place.stop
  | .mrg _ => True

/-- Build a tree by a sequence of `insert` calls on a fresh tree, the way
the parser populates a per-file tree. -/
def buildTree (inserts : List (OpsRange Location × Annotation)) :
    AnnotationTree :=
  inserts.foldl (fun t p => t.insert p.1 p.2) AnnotationTree.default

theorem applyOps_len (ops : List TreeOp) (t : AnnotationTree) :
    (applyOps t ops).len = t.len + insCount ops + mergeCountSum ops := by
  induction ops generalizing t with
  | nil => simp [applyOps, insCount, mergeCountSum]
  | cons op rest ih =>
      cases op with
      | ins place value =>
          simp only [applyOps, List.foldl] at *
          rw [ih]
          simp [TreeOp.apply, AnnotationTree.insert, insCount, mergeCountSum]
          omega
      | mrg other =>
          simp only [applyOps, List.foldl] at *
          rw [ih]
          simp [TreeOp.apply, AnnotationTree.merge, insCount, mergeCountSum]
          omega

theorem foldl_insert_entries
    (inserts : List (OpsRange Location × Annotation)) (t : AnnotationTree) :
    (inserts.foldl (fun t p => t.insert p.1 p.2) t).tree.entries
      = t.tree.entries
        ++ inserts.map
            (fun p => (range p.1.start (Location.pred p.1.stop), p.2)) := by
  induction inserts generalizing t with
  | nil => simp
  | cons hd tl ih =>
      simp only [List.foldl, List.map]
      rw [ih]
      simp [AnnotationTree.insert, IntervalTree.insert]

theorem iter_buildTree (inserts : List (OpsRange Location × Annotation)) :
    (buildTree inserts).iter
      = inserts.map
          (fun p => (range p.1.start (Location.pred p.1.stop), p.2)) := by
  simp [buildTree, AnnotationTree.iter, IntervalTree.iterate,
    foldl_insert_entries, AnnotationTree.default, IntervalTree.new]

theorem mem_get_range (t : AnnotationTree) (place : OpsRange Location)
    (e : RangeInclusive Location × Annotation) :
    e ∈ t.get_range place
      ↔ e ∈ t.iter
          ∧ e.1.start ≤ Location.pred place.stop ∧ place.start ≤ e.1.stop := by
  simp [AnnotationTree.get_range, AnnotationTree.iter, IntervalTree.iterate,
    IntervalTree.rangeQuery, List.mem_filter, RangeInclusive.overlaps, range,
    and_assoc]

theorem mem_get_location (t : AnnotationTree) (L : Location)
    (e : RangeInclusive Location × Annotation) :
    e ∈ t.get_location L
      ↔ e ∈ t.iter ∧ e.1.start ≤ L ∧ Location.pred L ≤ e.1.stop := by
  simp [AnnotationTree.get_location, AnnotationTree.iter,
    IntervalTree.iterate, IntervalTree.rangeQuery, List.mem_filter,
    RangeInclusive.overlaps, range, and_assoc]

/-- Claim C1 (count invariant): starting from the default tree, after any
valid sequence of N `insert` calls interleaved with merges of trees of
counts c1..cm, `len` equals N plus the sum of the ci, and `is_empty` holds
exactly when that total is zero. -/
theorem c1_count_invariant (ops : List TreeOp)
    (hvalid : ∀ op ∈ ops, op.valid) :
    (applyOps AnnotationTree.default ops).len
        = insCount ops + mergeCountSum ops
      ∧ ((applyOps AnnotationTree.default ops).is_empty = true
          ↔ insCount ops + mergeCountSum ops = 0) := by
  have h : (applyOps AnnotationTree.default ops).len
      = 0 + insCount ops + mergeCountSum ops :=
    applyOps_len ops AnnotationTree.default
  constructor
  · omega
  · simp only [AnnotationTree.is_empty, beq_iff_eq]
    omega

theorem c1_count_invariant_witness :
    ((applyOps AnnotationTree.default
          [TreeOp.ins ⟨0, 2⟩ Annotation.ParentCall,
            TreeOp.mrg (AnnotationTree.insert AnnotationTree.default ⟨5, 7⟩
              Annotation.ReturnVal)]).len
        = insCount
            [TreeOp.ins ⟨0, 2⟩ Annotation.ParentCall,
              TreeOp.mrg (AnnotationTree.insert AnnotationTree.default ⟨5, 7⟩
                Annotation.ReturnVal)]
          + mergeCountSum
              [TreeOp.ins ⟨0, 2⟩ Annotation.ParentCall,
                TreeOp.mrg (AnnotationTree.insert AnnotationTree.default ⟨5, 7⟩
                  Annotation.ReturnVal)])
      ∧ ((applyOps AnnotationTree.default
            [TreeOp.ins ⟨0, 2⟩ Annotation.ParentCall,
              TreeOp.mrg (AnnotationTree.insert AnnotationTree.default ⟨5, 7⟩
                Annotation.ReturnVal)]).is_empty = true
          ↔ insCount
                [TreeOp.ins ⟨0, 2⟩ Annotation.ParentCall,
                  TreeOp.mrg (AnnotationTree.insert AnnotationTree.default
                    ⟨5, 7⟩ Annotation.ReturnVal)]
              + mergeCountSum
                  [TreeOp.ins ⟨0, 2⟩ Annotation.ParentCall,
                    TreeOp.mrg (AnnotationTree.insert AnnotationTree.default
                      ⟨5, 7⟩ Annotation.ReturnVal)] = 0) :=
  c1_count_invariant _ (by
    intro op h
    simp only [List.mem_cons, List.mem_singleton] at h
    rcases h with h | h | h
    · subst h; show (0 : Int) ≤ 2; decide
    · subst h; trivial
    · exact absurd h (by simp))

/-- Claim C2, counterexample: the fact inserted with the half-open range
`[10, 15)` is also returned when querying location `15`, even though `15`
lies outside `[10, 15)` — `get_location` probes `[loc.pred(), loc]`, so the
stored range `[10, 14]` overlaps the probe `[14, 15]`. -/
theorem c2_counterexample :
    ¬ ((10 : Int) ≤ 15 ∧ (15 : Int) < 15)
      ∧ (range 10 14, Annotation.ParentCall)
          ∈ (buildTree [(⟨10, 15⟩, Annotation.ParentCall)]).get_location 15 := by
  constructor
  · simp
  · show (range 10 14, Annotation.ParentCall)
      ∈ [(range 10 14, Annotation.ParentCall)]
    exact List.mem_singleton.mpr rfl

/-- Claim C2 (amended): for a fact inserted with half-open range
`[s, e)`, its stored entry `([s, e.pred()], fact)` is returned by
`get_location(L)` exactly for the locations `L` with `s ≤ L ≤ e` — the
half-open bound is kept at `s ≤ L < e` but one extra location, `L = e`,
is also matched. -/
theorem c2_get_location_containment
    (inserts : List (OpsRange Location × Annotation))
    (r : OpsRange Location) (f : Annotation) (L : Location)
    (hmem : (r, f) ∈ inserts) :
    ((range r.start (Location.pred r.stop), f)
        ∈ (buildTree inserts).get_location L)
      ↔ (r.start ≤ L ∧ L ≤ r.stop) := by
  rw [mem_get_location]
  constructor
  · rintro ⟨-, h1, h2⟩
    have h1' : r.start ≤ L := h1
    have h2' : Location.pred L ≤ Location.pred r.stop := h2
    simp only [Location.pred] at h2'
    exact ⟨h1', by linarith⟩
  · rintro ⟨h1, h2⟩
    refine ⟨?_, h1, ?_⟩
    · rw [iter_buildTree]
      exact List.mem_map.mpr ⟨(r, f), hmem, rfl⟩
    · show Location.pred L ≤ Location.pred r.stop
      simp only [Location.pred]
      linarith

theorem c2_get_location_containment_witness :
    (((range 10 14, Annotation.ParentCall)
        ∈ (buildTree [(⟨10, 15⟩, Annotation.ParentCall)]).get_location 12)
      ↔ ((10 : Int) ≤ 12 ∧ (12 : Int) ≤ 15)) :=
  c2_get_location_containment [(⟨10, 15⟩, Annotation.ParentCall)]
    ⟨10, 15⟩ Annotation.ParentCall 12 (List.mem_singleton.mpr rfl)

/-- Claim C3 (resolution correctness): resolving a `ReturnOperation`
against a tree yields a `ReturnStatement` whose `returned_value` is exactly
the sequence of fact components of `get_range` on that tree at resolution
time, in the tree's native order; when `get_range` returns nothing,
`returned_value` is the empty sequence. -/
theorem c3_resolution_correctness (t : AnnotationTree)
    (r : OpsRange Location) :
    Annotation.resolved ( Annotation.ReturnOperation r) t
        = Annotation.ReturnStatement ((t.get_range r).map (fun e => e.2))
      ∧ (t.get_range r = [] →
          Annotation.resolved ( Annotation.ReturnOperation r) t
            = Annotation.ReturnStatement []) := by
  refine ⟨rfl, ?_⟩
  intro h
  simp [ Annotation.resolved, h]

theorem c3_resolution_correctness_witness :
    ( Annotation.resolved ( Annotation.ReturnOperation ⟨0, 1⟩)
          AnnotationTree.default
        = Annotation.ReturnStatement
            ((AnnotationTree.default.get_range ⟨0, 1⟩).map (fun e => e.2)))
      ∧ ( Annotation.resolved ( Annotation.ReturnOperation ⟨0, 1⟩)
            AnnotationTree.default
          = Annotation.ReturnStatement []) :=
  ⟨(c3_resolution_correctness AnnotationTree.default ⟨0, 1⟩).1,
    (c3_resolution_correctness AnnotationTree.default ⟨0, 1⟩).2 rfl⟩

/-- Claim C4 (range query boundary): for a valid probe `[a, b)`,
`get_range` returns every stored entry whose inclusive range touches
`b.pred()`, and returns no entry whose stored range starts exactly at `b`
(in particular none inserted with a half-open range starting at `b`, since
`insert` keeps the start endpoint). -/
theorem c4_range_query_boundary (t : AnnotationTree) (a b : Location)
    (hab : a < b) :
    (∀ e ∈ t.iter,
        e.1.start ≤ Location.pred b → Location.pred b ≤ e.1.stop →
          e ∈ t.get_range ⟨a, b⟩)
      ∧ (∀ e ∈ t.iter, e.1.start = b → e ∉ t.get_range ⟨a, b⟩) := by
  constructor
  · intro e he h1 h2
    refine (mem_get_range t ⟨a, b⟩ e).mpr ⟨he, h1, ?_⟩
    show a ≤ e.1.stop
    have hb : Location.pred b ≤ e.1.stop := h2
    simp only [Location.pred] at hb
    have h3 : a + 1 ≤ b := Int.add_one_le_iff.mpr hab
    linarith
  · intro e he hb hc
    obtain ⟨-, h1, -⟩ := (mem_get_range t ⟨a, b⟩ e).mp hc
    rw [hb] at h1
    simp only [Location.pred] at h1
    linarith

theorem c4_range_query_boundary_witness :
    ((range 10 14, Annotation.ReturnVal)
        ∈ (buildTree [(⟨10, 15⟩, Annotation.ReturnVal),
            (⟨15, 16⟩, Annotation.ParentCall)]).get_range ⟨10, 15⟩)
      ∧ ((range 15 15, Annotation.ParentCall)
          ∉ (buildTree [(⟨10, 15⟩, Annotation.ReturnVal),
              (⟨15, 16⟩, Annotation.ParentCall)]).get_range ⟨10, 15⟩) := by
  have h := c4_range_query_boundary
    (buildTree [(⟨10, 15⟩, Annotation.ReturnVal),
      (⟨15, 16⟩, Annotation.ParentCall)]) 10 15 (by decide)
  constructor
  · refine h.1 (range 10 14, Annotation.ReturnVal) ?_ (by decide) (by decide)
    show (range 10 14, Annotation.ReturnVal)
      ∈ [(range 10 14, Annotation.ReturnVal),
          (range 15 15, Annotation.ParentCall)]
    exact List.mem_cons_self _ _
  · refine h.2 (range 15 15, Annotation.ParentCall) ?_ rfl
    show (range 15 15, Annotation.ParentCall)
      ∈ [(range 10 14, Annotation.ReturnVal),
          (range 15 15, Annotation.ParentCall)]
    exact List.mem_cons_of_mem _ (List.mem_cons_self _ _)

/-- Claim C5 (insert totality): under the precondition `start ≤ end`,
`insert` is a total function that appends to the underlying tree exactly
one entry carrying the inclusive range `[start, end.pred()]` and the fact,
and increments the running count by one; there is no error branch. -/
theorem c5_insert_totality (t : AnnotationTree) (place : OpsRange Location)
    (value : Annotation) (hvalid : place.start ≤ place.stop) :
    (t.insert place value).iter
        = t.iter ++ [(range place.start (Location.pred place.stop), value)]
      ∧ (t.insert place value).len = t.len + 1 :=
  ⟨rfl, rfl⟩

theorem c5_insert_totality_witness :
    ((AnnotationTree.insert AnnotationTree.default ⟨3, 7⟩
          Annotation.ReturnVal).iter
        = AnnotationTree.default.iter ++ [(range 3 6, Annotation.ReturnVal)])
      ∧ (AnnotationTree.insert AnnotationTree.default ⟨3, 7⟩
          Annotation.ReturnVal).len = AnnotationTree.default.len + 1 :=
  c5_insert_totality AnnotationTree.default ⟨3, 7⟩ Annotation.ReturnVal
    (by decide)

/-- Claim C6 (merge associativity of result sets): merging `(A ⊕ B) ⊕ C`
and `A ⊕ (B ⊕ C)` yields the same multiset of `(range, fact)` pairs as
observed through `iter` and through every range query, and equal counts. -/
theorem c6_merge_associativity (A B C : AnnotationTree) :
    Multiset.ofList ((A.merge B).merge C).iter
        = Multiset.ofList (A.merge (B.merge C)).iter
      ∧ (∀ place : OpsRange Location,
          Multiset.ofList (((A.merge B).merge C).get_range place)
            = Multiset.ofList ((A.merge (B.merge C)).get_range place))
      ∧ ((A.merge B).merge C).len = (A.merge (B.merge C)).len := by
  have hiter : ((A.merge B).merge C).iter = (A.merge (B.merge C)).iter := by
    simp [AnnotationTree.merge, IntervalTree.merge, AnnotationTree.iter,
      IntervalTree.iterate]
  refine ⟨by rw [hiter], fun place => ?_, ?_⟩
  · have : ((A.merge B).merge C).get_range place
        = (A.merge (B.merge C)).get_range place := by
      simp [AnnotationTree.get_range, IntervalTree.rangeQuery,
        AnnotationTree.merge, IntervalTree.merge]
    rw [this]
  · simp [AnnotationTree.merge, Nat.add_assoc]

/-- Claim C7 (empty-merge identity): merging the default (never inserted
into) tree into `T` leaves `T` unchanged: same value, same count, and the
same results for `iter`, `get_location` and `get_range`. -/
theorem c7_empty_merge_identity (t : AnnotationTree) :
    t.merge AnnotationTree.default = t
      ∧ (t.merge AnnotationTree.default).len = t.len
      ∧ (t.merge AnnotationTree.default).iter = t.iter
      ∧ (∀ L : Location,
          (t.merge AnnotationTree.default).get_location L = t.get_location L)
      ∧ (∀ place : OpsRange Location,
          (t.merge AnnotationTree.default).get_range place
            = t.get_range place) := by
  have h : t.merge AnnotationTree.default = t := by
    obtain ⟨⟨es⟩, n⟩ := t
    simp [AnnotationTree.merge, AnnotationTree.default, IntervalTree.merge,
      IntervalTree.new]
  exact ⟨h, by rw [h], by rw [h], fun L => by rw [h], fun place => by rw [h]⟩

/-- Claim C8 (non-resolution passthrough): resolving any fact whose variant
is not `ReturnOperation` returns it unchanged, for every tree. -/
theorem c8_non_resolution_passthrough (f : Annotation) (t : AnnotationTree)
    (h : f.isReturnOperation = false) :
    Annotation.resolved f t = f := by
  cases f
  case ReturnOperation r => simp [ Annotation.isReturnOperation] at h
  all_goals rfl

theorem c8_non_resolution_passthrough_witness :
    Annotation.isReturnOperation Annotation.ParentCall = false
      ∧ Annotation.resolved Annotation.ParentCall AnnotationTree.default
          = Annotation.ParentCall :=
  ⟨rfl, c8_non_resolution_passthrough Annotation.ParentCall
    AnnotationTree.default rfl⟩

/-- Claim C9 (predecessor-conversion equivalence): `get_range` is exactly
`get_range_raw` composed with the half-open-to-inclusive conversion
`[start, end.pred()]` that `insert` uses, and `get_range_raw` passes its
already-inclusive probe to the underlying range query unconverted. -/
theorem c9_get_range_refinement (t : AnnotationTree) :
    (∀ place : OpsRange Location,
        t.get_range place
          = t.get_range_raw (range place.start (Location.pred place.stop)))
      ∧ (∀ place : RangeInclusive Location,
          t.get_range_raw place = t.tree.rangeQuery place) :=
  ⟨fun _ => rfl, fun _ => rfl⟩

/-- State-passing embedding of `AnnotationTree::get_range` as called
through the shared reference `&self`: the query result is returned together
with the tree state, which a shared borrow cannot modify. -/
def AnnotationTree.get_rangeSt (t : AnnotationTree)
    (place : OpsRange Location) :
    List (RangeInclusive Location × Annotation) × AnnotationTree :=
  (t.get_range place, t)

/-- State-passing embedding of `Annotation::resolved`: the source takes the
tree by shared reference and only issues the read query `get_range`, so the
embedding threads the tree state through that single call and returns the
state alongside the resolved fact. -/
def Annotation.resolvedSt (f : Annotation) (t : AnnotationTree) :
    Annotation × AnnotationTree :=
  match f with
  | .ReturnOperation r =>
      let q := t.get_rangeSt r
      ( Annotation.ReturnStatement (q.1.map (fun e => e.2)), q.2)
  | other => (other, t)

/-- Claim C10 (resolution never mutates the tree): in the state-passing
embedding of `Annotation::resolved`, the tree state coming out of a
resolution is the input tree itself — same count and identical results for
`iter`, `get_location`, `get_range` and `get_range_raw` — and the fact
computed agrees with the direct reading of the source. -/
theorem c10_resolved_frame (f : Annotation) (t : AnnotationTree) :
    ( Annotation.resolvedSt f t).1 = Annotation.resolved f t
      ∧ ( Annotation.resolvedSt f t).2 = t
      ∧ (( Annotation.resolvedSt f t).2).len = t.len
      ∧ (( Annotation.resolvedSt f t).2).iter = t.iter
      ∧ (∀ L : Location,
          (( Annotation.resolvedSt f t).2).get_location L = t.get_location L)
      ∧ (∀ place : OpsRange Location,
          (( Annotation.resolvedSt f t).2).get_range place
            = t.get_range place)
      ∧ (∀ place : RangeInclusive Location,
          (( Annotation.resolvedSt f t).2).get_range_raw place
            = t.get_range_raw place) := by
  have h2 : ( Annotation.resolvedSt f t).2 = t := by
    cases f <;> rfl
  have h1 : ( Annotation.resolvedSt f t).1 = Annotation.resolved f t := by
    cases f <;> rfl
  exact ⟨h1, h2, by rw [h2], by rw [h2], fun L => by rw [h2],
    fun place => by rw [h2], fun place => by rw [h2]⟩
